import Mathlib

/-!
Shallow embedding of the resilient extraction pipeline of the
telebotwala repository (Python sources under `utils/`, `extractors/`):
proxy pool scoring and selection (`utils/proxy_manager.py`), cookie
identity pool (`utils/cookie_manager.py`), token-bucket rate limiter
(`utils/rate_limiter.py`), LRU result cache (`utils/cache_manager.py`),
the retrying request executor (`extractors/base.py`) and the extraction
orchestrator (`extractors/__init__.py`).

Python floats are modelled as exact rationals, `time.time()` readings
are explicit parameters, `random.choice(lst)` is modelled as
`lst[choice % len(lst)]` for an oracle `choice`, and Python's stable
`list.sort(key=...)` is modelled with a stable insertion sort.
-/

namespace Telebot

/-- Python's `for x in xs: if p(x): mutate(x); break` pattern, used by the
report methods of the pools: rewrite the first element satisfying `p`
with `f`, leave everything else alone. -/
def updateFirst {α : Type} (p : α → Bool) (f : α → α) : List α → List α
  | [] => []
  | c :: rest => if p c then f c :: rest else c :: updateFirst p f rest

/-- Assignment `d[k] = v` on a Python (ordered) dict modelled as an
association list: an existing key keeps its position and gets the new
value, a new key is appended at the end. -/
def assocSet {α β : Type} [BEq α] (k : α) (v : β) : List (α × β) → List (α × β)
  | [] => [(k, v)]
  | kv :: rest => if kv.1 == k then (k, v) :: rest else kv :: assocSet k v rest

/-- Python's stable `lst.sort(key=key, reverse=True)`: stable sort,
descending by a rational-valued key. -/
def sortDesc {α : Type} (key : α → ℚ) (l : List α) : List α :=
  List.insertionSort (fun a b => key b ≤ key a) l

/-- Python's stable `lst.sort(key=key)`: stable sort, ascending by an
integer-valued key. -/
def sortAsc {α : Type} (key : α → Int) (l : List α) : List α :=
  List.insertionSort (fun a b => key a ≤ key b) l

theorem sortDesc_sorted {α : Type} (key : α → ℚ) (l : List α) :
    List.Sorted (fun a b => key b ≤ key a) (sortDesc key l) :=
  @List.sorted_insertionSort α (fun a b => key b ≤ key a) _
    ⟨fun a b => le_total (key b) (key a)⟩
    ⟨fun _ _ _ h1 h2 => le_trans h2 h1⟩ l

theorem sortDesc_perm {α : Type} (key : α → ℚ) (l : List α) :
    (sortDesc key l).Perm l :=
  List.perm_insertionSort _ l

theorem sortAsc_sorted {α : Type} (key : α → Int) (l : List α) :
    List.Sorted (fun a b => key a ≤ key b) (sortAsc key l) :=
  @List.sorted_insertionSort α (fun a b => key a ≤ key b) _
    ⟨fun a b => le_total (key a) (key b)⟩
    ⟨fun _ _ _ h1 h2 => le_trans h1 h2⟩ l

theorem sortAsc_perm {α : Type} (key : α → Int) (l : List α) :
    (sortAsc key l).Perm l :=
  List.perm_insertionSort _ l

/-! ## Proxy pool (`utils/proxy_manager.py`) -/

/-- The `Proxy` dataclass. -/
structure Proxy where
  url : String
  last_used : ℚ := 0
  success_count : Nat := 0
  fail_count : Nat := 0
  avg_response_time : ℚ := 0
  is_alive : Bool := true
deriving DecidableEq

/-- `Proxy.score`: 0.5 with no recorded attempts, otherwise
`0.7 * success_rate + 0.3 * max(0, 1 - avg_response_time/10)`. -/
def Proxy.score (p : Proxy) : ℚ :=
  if p.success_count + p.fail_count = 0 then 0.5
  else
    let success_rate : ℚ := (p.success_count : ℚ) / ((p.success_count : ℚ) + (p.fail_count : ℚ))
    let speed_score : ℚ := max 0 (1 - p.avg_response_time / 10)
    success_rate * 0.7 + speed_score * 0.3

/-! ## Result cache (`utils/cache_manager.py`) -/

/-- The `CacheEntry` dataclass. -/
structure CacheEntry (α : Type) where
  value : α
  created_at : ℚ
  ttl : ℚ
  hits : Nat := 0
deriving DecidableEq

/-- `CacheEntry.is_expired`: age strictly greater than the entry's TTL. -/
def CacheEntry.is_expired {α : Type} (e : CacheEntry α) (now : ℚ) : Bool :=
  decide (now - e.created_at > e.ttl)

/-- `MemoryCache`: the `OrderedDict` is an association list whose head is
the oldest (least recently used) entry; the `stats` dict is flattened
into the `hits`/`misses` fields. -/
structure MemoryCache (α : Type) where
  cache : List (String × CacheEntry α)
  max_size : Nat := 10000
  default_ttl : ℚ := 3600
  hits : Nat := 0
  misses : Nat := 0
deriving DecidableEq

/-- The `while len(self.cache) >= self.max_size: self.cache.popitem(last=False)`
loop of `MemoryCache.set`: drop entries from the front until the size is
below `max_size`. -/
def evictLoop {α : Type} (max_size : Nat) : List (String × CacheEntry α) → List (String × CacheEntry α)
  | [] => []
  | x :: xs => if xs.length + 1 ≥ max_size then evictLoop max_size xs else x :: xs

/-- `MemoryCache.get`: expired entries are removed and count as a miss, a
hit moves the entry to the most-recently-used end and bumps its hit
counter. The module-level `CACHE_ENABLED` flag is an explicit argument. -/
def MemoryCache.get {α : Type} (c : MemoryCache α) (cache_enabled : Bool) (key : String)
    (now : ℚ) : Option α × MemoryCache α :=
  if ¬cache_enabled then (none, c)
  else
    match c.cache.lookup key with
    | some entry =>
      if entry.is_expired now then
        (none, { c with cache := c.cache.eraseP (fun kv => kv.1 == key),
                        misses := c.misses + 1 })
      else
        (some entry.value,
         { c with cache := c.cache.eraseP (fun kv => kv.1 == key)
                             ++ [(key, { entry with hits := entry.hits + 1 })],
                  hits := c.hits + 1 })
    | none => (none, { c with misses := c.misses + 1 })

/-- `MemoryCache.set`: evict from the least-recently-used end while at
capacity, then store the entry; the effective TTL is `ttl or default_ttl`
(Python falsiness: a `None` or zero `ttl` falls back to the default). -/
def MemoryCache.set {α : Type} (c : MemoryCache α) (cache_enabled : Bool) (key : String)
    (v : α) (ttl : Option ℚ) (now : ℚ) : MemoryCache α :=
  if ¬cache_enabled then c
  else
    let t : ℚ :=
      match ttl with
      | some t => if t = 0 then c.default_ttl else t
      | none => c.default_ttl
    { c with cache := assocSet key { value := v, created_at := now, ttl := t, hits := 0 }
                        (evictLoop c.max_size c.cache) }

/-! ## Association-list lemmas -/

theorem lookup_assocSet_self {α β : Type} [BEq α] [LawfulBEq α] (k : α) (v : β) :
    ∀ l : List (α × β), (assocSet k v l).lookup k = some v := by
  intro l
  induction l with
  | nil => simp [assocSet, List.lookup]
  | cons kv rest ih =>
    by_cases h : kv.1 = k
    · simp [assocSet, h, List.lookup]
    · have hb : (kv.1 == k) = false := beq_eq_false_iff_ne.2 h
      have hb' : (k == kv.1) = false := beq_eq_false_iff_ne.2 (Ne.symm h)
      simp [assocSet, hb, List.lookup, hb', ih]

theorem lookup_none_iff_not_mem {α β : Type} [BEq α] [LawfulBEq α] (k : α) :
    ∀ l : List (α × β), l.lookup k = none ↔ k ∉ l.map Prod.fst := by
  intro l
  induction l with
  | nil => simp [List.lookup]
  | cons kv rest ih =>
    by_cases h : k = kv.1
    · simp [List.lookup, h]
    · have hb : (k == kv.1) = false := beq_eq_false_iff_ne.2 h
      simp [List.lookup, hb, ih, h]

theorem lookup_eq_none_of_not_mem {α β : Type} [BEq α] [LawfulBEq α] (k : α) :
    ∀ l : List (α × β), k ∉ l.map Prod.fst → l.lookup k = none := by
  intro l
  induction l with
  | nil => intro _; rfl
  | cons kv rest ih =>
    intro h
    simp only [List.map_cons, List.mem_cons] at h
    push_neg at h
    have hb : (k == kv.1) = false := beq_eq_false_iff_ne.2 h.1
    simpa [List.lookup, hb] using ih h.2

theorem lookup_none_of_nodup_eraseP {α β : Type} [BEq α] [LawfulBEq α] (k : α) :
    ∀ l : List (α × β), (l.map Prod.fst).Nodup →
      (l.eraseP (fun kv => kv.1 == k)).lookup k = none := by
  intro l
  induction l with
  | nil => intro _; rfl
  | cons kv rest ih =>
    intro hnd
    simp only [List.map_cons, List.nodup_cons] at hnd
    by_cases h : kv.1 = k
    · rw [List.eraseP_cons_of_pos (by simpa using h)]
      exact lookup_eq_none_of_not_mem k rest (by rw [← h]; exact hnd.1)
    · rw [List.eraseP_cons_of_neg (by simpa using h)]
      have hb : (k == kv.1) = false := beq_eq_false_iff_ne.2 (Ne.symm h)
      simpa [List.lookup, hb] using ih hnd.2

theorem mem_keys_assocSet {α β : Type} [BEq α] [LawfulBEq α] (k a : α) (v : β) :
    ∀ l : List (α × β), a ∈ (assocSet k v l).map Prod.fst →
      a = k ∨ a ∈ l.map Prod.fst := by
  intro l
  induction l with
  | nil => simp [assocSet]
  | cons kv rest ih =>
    by_cases h : kv.1 = k
    · have hb : (kv.1 == k) = true := beq_iff_eq.2 h
      simp only [assocSet, hb, if_true, List.map_cons, List.mem_cons]
      intro hm
      rcases hm with hm | hm
      · exact Or.inl hm
      · exact Or.inr (Or.inr hm)
    · have hb : (kv.1 == k) = false := beq_eq_false_iff_ne.2 h
      simp only [assocSet, hb, Bool.false_eq_true, if_false, List.map_cons, List.mem_cons]
      intro hm
      rcases hm with hm | hm
      · exact Or.inr (Or.inl hm)
      · rcases ih hm with hm' | hm'
        · exact Or.inl hm'
        · exact Or.inr (Or.inr hm')

theorem nodup_keys_assocSet {α β : Type} [BEq α] [LawfulBEq α] (k : α) (v : β) :
    ∀ l : List (α × β), (l.map Prod.fst).Nodup →
      ((assocSet k v l).map Prod.fst).Nodup := by
  intro l
  induction l with
  | nil => intro _; simp [assocSet]
  | cons kv rest ih =>
    intro hnd
    simp only [List.map_cons, List.nodup_cons] at hnd
    by_cases h : kv.1 = k
    · have hb : (kv.1 == k) = true := beq_iff_eq.2 h
      simp only [assocSet, hb, if_true, List.map_cons, List.nodup_cons]
      exact ⟨by rw [← h]; exact hnd.1, hnd.2⟩
    · have hb : (kv.1 == k) = false := beq_eq_false_iff_ne.2 h
      simp only [assocSet, hb, Bool.false_eq_true, if_false, List.map_cons, List.nodup_cons]
      refine ⟨fun hm => ?_, ih hnd.2⟩
      rcases mem_keys_assocSet k kv.1 v rest hm with hm' | hm'
      · exact h hm'
      · exact hnd.1 hm'

theorem mem_tail_of_mem_getLast? {α : Type} (l : List α) (h2 : 2 ≤ l.length) (x : α)
    (hx : x ∈ l.getLast?) : x ∈ l.tail := by
  cases l with
  | nil => simp at hx
  | cons a l' =>
    cases l' with
    | nil => simp at h2
    | cons b l'' =>
      rw [List.getLast?_cons_cons] at hx
      simpa using List.mem_of_mem_getLast? hx

theorem assocSet_of_lookup_none {α β : Type} [BEq α] [LawfulBEq α] (k : α) (v : β) :
    ∀ l : List (α × β), l.lookup k = none → assocSet k v l = l ++ [(k, v)] := by
  intro l
  induction l with
  | nil => intro _; rfl
  | cons kv rest ih =>
    intro h
    by_cases hk : k = kv.1
    · simp [List.lookup, hk] at h
    · have hb : (k == kv.1) = false := beq_eq_false_iff_ne.2 hk
      simp only [List.lookup, hb] at h
      have hb' : (kv.1 == k) = false := beq_eq_false_iff_ne.2 (Ne.symm hk)
      simp [assocSet, hb', ih h]

/-! ## evictLoop lemmas -/

theorem evictLoop_sublist {α : Type} (m : Nat) :
    ∀ l : List (String × CacheEntry α), (evictLoop m l).Sublist l := by
  intro l
  induction l with
  | nil => simp [evictLoop]
  | cons x xs ih =>
    by_cases h : xs.length + 1 ≥ m
    · simp only [evictLoop, if_pos h]
      exact ih.trans (List.sublist_cons_self x xs)
    · simp [evictLoop, if_neg h]

theorem evictLoop_of_lt {α : Type} (m : Nat) (l : List (String × CacheEntry α))
    (h : l.length < m) : evictLoop m l = l := by
  cases l with
  | nil => rfl
  | cons x xs => simp only [List.length_cons] at h; simp [evictLoop, Nat.not_le.2 h]

theorem evictLoop_of_full {α : Type} (m : Nat) (l : List (String × CacheEntry α))
    (hlen : l.length = m) (hpos : 1 ≤ m) : evictLoop m l = l.tail := by
  cases l with
  | nil => simp at hlen; omega
  | cons x xs =>
    simp only [List.length_cons] at hlen
    have : xs.length + 1 ≥ m := by omega
    simp only [evictLoop, if_pos this, List.tail_cons]
    exact evictLoop_of_lt m xs (by omega)

/-! ## Claim theorems: proxy scoring and the cache -/

/-- C8: a proxy with no recorded attempts scores exactly 0.5; otherwise the
score is `0.7 * success_rate + 0.3 * max(0, 1 - avg_response_time/10)`;
consequently, for two proxies with recorded attempts and identical average
latency, a strictly higher success rate gives a greater-or-equal score. -/
theorem proxy_score_formula_and_monotone :
    (∀ p : Proxy, p.success_count + p.fail_count = 0 → p.score = 0.5)
    ∧ (∀ p : Proxy, p.success_count + p.fail_count ≠ 0 →
        p.score = ((p.success_count : ℚ) / ((p.success_count : ℚ) + (p.fail_count : ℚ))) * 0.7
          + (max 0 (1 - p.avg_response_time / 10)) * 0.3)
    ∧ (∀ p q : Proxy, p.success_count + p.fail_count ≠ 0 →
        q.success_count + q.fail_count ≠ 0 →
        p.avg_response_time = q.avg_response_time →
        (q.success_count : ℚ) / ((q.success_count : ℚ) + (q.fail_count : ℚ))
          < (p.success_count : ℚ) / ((p.success_count : ℚ) + (p.fail_count : ℚ)) →
        q.score ≤ p.score) := by
  refine ⟨fun p h => by simp [Proxy.score, h], fun p h => by simp [Proxy.score, h], ?_⟩
  intro p q hp hq hlat hrate
  simp only [Proxy.score, if_neg hp, if_neg hq, hlat]
  have h1 : (q.success_count : ℚ) / ((q.success_count : ℚ) + (q.fail_count : ℚ))
      ≤ (p.success_count : ℚ) / ((p.success_count : ℚ) + (p.fail_count : ℚ)) := le_of_lt hrate
  have h2 : (0.7 : ℚ) > 0 := by norm_num
  nlinarith [h1, h2]

/-- Witness for `proxy_score_formula_and_monotone` at concrete proxies. -/
theorem proxy_score_formula_and_monotone_witness :
    (Proxy.mk "a" 0 0 0 0 true).score = 0.5
    ∧ (Proxy.mk "d" 0 0 1 0 true).score ≤ (Proxy.mk "c" 0 1 0 0 true).score := by
  constructor
  · exact proxy_score_formula_and_monotone.1 _ rfl
  · exact proxy_score_formula_and_monotone.2.2 _ _ (by decide) (by decide) rfl (by norm_num)

/-- C6: with caching enabled and a positive TTL `t`, a `get` at any time at
most `t` seconds after `set(k, v, t)` returns `v` (in particular a get
immediately after the set), while a `get` strictly more than `t` seconds
later is a miss and removes the entry. -/
theorem cache_set_then_get {α : Type} (c : MemoryCache α) (k : String) (v : α)
    (t now nowHit nowMiss : ℚ) (ht : 0 < t)
    (hnd : (c.cache.map Prod.fst).Nodup) :
    (nowHit - now ≤ t → ((c.set true k v (some t) now).get true k nowHit).1 = some v)
    ∧ (t < nowMiss - now →
        ((c.set true k v (some t) now).get true k nowMiss).1 = none
        ∧ ((c.set true k v (some t) now).get true k nowMiss).2.cache.lookup k = none) := by
  have htne : t ≠ 0 := ne_of_gt ht
  have hc1 : (c.set true k v (some t) now).cache
      = assocSet k { value := v, created_at := now, ttl := t, hits := 0 }
          (evictLoop c.max_size c.cache) := by
    simp [MemoryCache.set, htne]
  have hlk : (c.set true k v (some t) now).cache.lookup k
      = some { value := v, created_at := now, ttl := t, hits := 0 } := by
    rw [hc1]; exact lookup_assocSet_self k _ _
  have hnd1 : ((c.set true k v (some t) now).cache.map Prod.fst).Nodup := by
    rw [hc1]
    exact nodup_keys_assocSet k _ _
      (((evictLoop_sublist c.max_size c.cache).map Prod.fst).nodup hnd)
  constructor
  · intro hle
    have hexp : ({ value := v, created_at := now, ttl := t, hits := 0 } :
        CacheEntry α).is_expired nowHit = false := by
      simp [CacheEntry.is_expired]; linarith
    simp [MemoryCache.get, hlk, hexp]
  · intro hgt
    have hexp : ({ value := v, created_at := now, ttl := t, hits := 0 } :
        CacheEntry α).is_expired nowMiss = true := by
      simp [CacheEntry.is_expired]; linarith
    constructor
    · simp [MemoryCache.get, hlk, hexp]
    · simp only [MemoryCache.get, not_true, if_false, hlk, hexp, if_true]
      exact lookup_none_of_nodup_eraseP k _ hnd1

/-- Witness for `cache_set_then_get`: empty cache, TTL 1, a hit at elapsed 0
and a miss at elapsed 2. -/
theorem cache_set_then_get_witness :
    ((0 : ℚ) - 0 ≤ 1 →
      (((MemoryCache.mk ([] : List (String × CacheEntry Nat)) 10 3600 0 0).set
          true "k" 7 (some 1) 0).get true "k" 0).1 = some 7)
    ∧ ((1 : ℚ) < 2 - 0 →
        (((MemoryCache.mk ([] : List (String × CacheEntry Nat)) 10 3600 0 0).set
            true "k" 7 (some 1) 0).get true "k" 2).1 = none
        ∧ (((MemoryCache.mk ([] : List (String × CacheEntry Nat)) 10 3600 0 0).set
            true "k" 7 (some 1) 0).get true "k" 2).2.cache.lookup "k" = none) :=
  cache_set_then_get (MemoryCache.mk [] 10 3600 0 0) "k" 7 1 0 0 2 (by norm_num) (by simp)

/-- C7: a `set` of a fresh key on a cache already holding `max_size ≥ 1`
entries evicts exactly the least-recently-used entry (the front of the
recency order) before inserting; the resulting cache again holds `max_size`
entries, and with at least two entries present the most-recently-used entry
survives. -/
theorem cache_set_evicts_lru {α : Type} (c : MemoryCache α) (k : String) (v : α)
    (t now : ℚ) (ht : 0 < t)
    (hfull : c.cache.length = c.max_size) (hpos : 1 ≤ c.max_size)
    (hnew : c.cache.lookup k = none) :
    ((c.set true k v (some t) now).cache
        = c.cache.tail ++ [(k, { value := v, created_at := now, ttl := t, hits := 0 })])
    ∧ (c.set true k v (some t) now).cache.length ≤ c.max_size
    ∧ (2 ≤ c.cache.length → ∀ mru ∈ c.cache.getLast?,
        mru ∈ (c.set true k v (some t) now).cache) := by
  have htne : t ≠ 0 := ne_of_gt ht
  have hev : evictLoop c.max_size c.cache = c.cache.tail :=
    evictLoop_of_full c.max_size c.cache hfull hpos
  have htl : c.cache.tail.lookup k = none := by
    apply lookup_eq_none_of_not_mem
    intro hm
    exact (lookup_none_iff_not_mem k c.cache).1 hnew
      ((List.Sublist.map Prod.fst (List.tail_sublist c.cache)).mem hm)
  have hc1 : (c.set true k v (some t) now).cache
      = c.cache.tail ++ [(k, { value := v, created_at := now, ttl := t, hits := 0 })] := by
    simp only [MemoryCache.set, htne, hev]
    simp only [not_true, if_false]
    exact assocSet_of_lookup_none k _ _ htl
  refine ⟨hc1, ?_, ?_⟩
  · rw [hc1]
    simp only [List.length_append, List.length_tail, List.length_cons, List.length_nil]
    omega
  · intro h2 mru hmru
    rw [hc1]
    exact List.mem_append_left _ (mem_tail_of_mem_getLast? c.cache h2 mru hmru)

/-! ## Cookie identity pool (`utils/cookie_manager.py`) -/

/-- The `Cookie` dataclass. -/
structure Cookie where
  value : String
  created_at : ℚ
  last_used : ℚ
  success_count : Nat := 0
  fail_count : Nat := 0
  is_valid : Bool := true
deriving DecidableEq

/-- The sort key of `get_cookie`:
`c.success_count / max(1, c.success_count + c.fail_count)`. -/
def Cookie.successRate (c : Cookie) : ℚ :=
  (c.success_count : ℚ) / ((max 1 (c.success_count + c.fail_count) : Nat) : ℚ)

/-- The `valid_cookies.sort(key=..., reverse=True)` call: stable sort,
descending by success rate. -/
def sortCookies (l : List Cookie) : List Cookie :=
  sortDesc Cookie.successRate l

/-- The selection line of `get_cookie`:
`random.choice(valid_cookies[:3]) if len(valid_cookies) >= 3 else valid_cookies[0]`,
with `random.choice(lst)` modelled as `lst[choice % len(lst)]`. The `none`
result models the `IndexError` Python would raise on an empty pool. -/
def selectCookie (sorted : List Cookie) (choice : Nat) : Option Cookie :=
  if 3 ≤ sorted.length then (sorted.take 3)[choice % 3]?
  else sorted.head?

/-- `CookieManager.get_cookie`. The `fresh` argument supplies the pool that
`_generate_initial_cookies` would create when every cookie is invalid. In
that regeneration branch `valid_cookies` aliases `self.cookies`, so the
in-place sort reorders the stored pool; in the normal branch the sort acts
on the filtered copy and the stored order is untouched. Marking
`selected.last_used` is modelled as rewriting the first stored cookie equal
to the selected one. -/
def get_cookie (cookies : List Cookie) (now : ℚ) (fresh : List Cookie)
    (choice : Nat) : Option String × List Cookie :=
  let valid := cookies.filter (fun c => c.is_valid)
  if valid.isEmpty then
    let sorted := sortCookies fresh
    match selectCookie sorted choice with
    | none => (none, sorted)
    | some sel =>
      (some sel.value,
       updateFirst (fun c => c == sel) (fun c => { c with last_used := now }) sorted)
  else
    let sorted := sortCookies valid
    match selectCookie sorted choice with
    | none => (none, cookies)
    | some sel =>
      (some sel.value,
       updateFirst (fun c => c == sel) (fun c => { c with last_used := now }) cookies)

/-- `CookieManager.report_success`. -/
def report_success (cookies : List Cookie) (v : String) : List Cookie :=
  updateFirst (fun c => c.value == v)
    (fun c => { c with success_count := c.success_count + 1 }) cookies

/-- `CookieManager.report_failure`: increment the failure count and
invalidate once it exceeds 3. -/
def report_failure (cookies : List Cookie) (v : String) : List Cookie :=
  updateFirst (fun c => c.value == v)
    (fun c =>
      let c' := { c with fail_count := c.fail_count + 1 }
      if 3 < c'.fail_count then { c' with is_valid := false } else c') cookies

/-- One observable operation against the cookie pool. -/
inductive CookieOp where
  | get (now : ℚ) (fresh : List Cookie) (choice : Nat)
  | success (v : String)
  | failure (v : String)

/-- Run one operation, returning the value handed out (for `get`) and the
new pool. -/
def cookieStep (cookies : List Cookie) : CookieOp → Option String × List Cookie
  | .get now fresh choice => get_cookie cookies now fresh choice
  | .success v => (none, report_success cookies v)
  | .failure v => (none, report_failure cookies v)

/-- Run a sequence of operations, collecting every handed-out value. -/
def runCookieOps (cookies : List Cookie) : List CookieOp → List (Option String) × List Cookie
  | [] => ([], cookies)
  | op :: rest =>
    let s := cookieStep cookies op
    let r := runCookieOps s.2 rest
    (s.1 :: r.1, r.2)

/-- Every cookie carrying the value `v0` is marked invalid. -/
def valueDead (cookies : List Cookie) (v0 : String) : Prop :=
  ∀ c ∈ cookies, c.value = v0 → c.is_valid = false

/-- No regeneration in the operation sequence produces a cookie with the
value `v0` (the generator draws fresh random values). -/
def freshAvoids (ops : List CookieOp) (v0 : String) : Prop :=
  ∀ op ∈ ops,
    match op with
    | CookieOp.get _ fresh _ => ∀ c ∈ fresh, c.value ≠ v0
    | _ => True

theorem updateFirst_pred_preserved {α : Type} (P : α → Prop) (p : α → Bool) (f : α → α) :
    ∀ l : List α, (∀ c ∈ l, P c) → (∀ c, P c → P (f c)) →
      ∀ c ∈ updateFirst p f l, P c := by
  intro l
  induction l with
  | nil => intro _ _ c hc; simp [updateFirst] at hc
  | cons a rest ih =>
    intro hP hf c hc
    by_cases hpa : p a
    · simp only [updateFirst, hpa, if_true, List.mem_cons] at hc
      rcases hc with rfl | hc
      · exact hf a (hP a (by simp))
      · exact hP c (by simp [hc])
    · simp only [updateFirst, hpa, Bool.false_eq_true, if_false, List.mem_cons] at hc
      rcases hc with rfl | hc
      · exact hP c (by simp)
      · exact ih (fun d hd => hP d (by simp [hd])) hf c hc

theorem mem_of_selectCookie {s : List Cookie} {choice : Nat} {sel : Cookie}
    (h : selectCookie s choice = some sel) : sel ∈ s := by
  unfold selectCookie at h
  by_cases h3 : 3 ≤ s.length
  · rw [if_pos h3] at h
    have hm : sel ∈ s.take 3 := by
      rcases List.getElem?_eq_some_iff.1 h with ⟨hlt, hget⟩
      exact hget ▸ List.getElem_mem hlt
    exact List.mem_of_mem_take hm
  · rw [if_neg h3] at h
    exact List.mem_of_mem_head? h

theorem get_cookie_avoids_dead (cookies : List Cookie) (v0 : String) (now : ℚ)
    (fresh : List Cookie) (choice : Nat)
    (hdead : valueDead cookies v0) (hfresh : ∀ c ∈ fresh, c.value ≠ v0) :
    (get_cookie cookies now fresh choice).1 ≠ some v0
    ∧ valueDead (get_cookie cookies now fresh choice).2 v0 := by
  unfold get_cookie
  by_cases hempty : (cookies.filter (fun c => c.is_valid)).isEmpty
  · simp only [hempty, if_true]
    have hsorted : ∀ c ∈ sortCookies fresh, c.value ≠ v0 := by
      intro c hc
      exact hfresh c ((sortDesc_perm Cookie.successRate fresh).mem_iff.1 hc)
    cases hsel : selectCookie (sortCookies fresh) choice with
    | none =>
      refine ⟨by simp, ?_⟩
      intro c hc hv
      exact absurd hv (hsorted c hc)
    | some sel =>
      refine ⟨?_, ?_⟩
      · simp only [ne_eq, Option.some.injEq]
        exact fun hv => hsorted sel (mem_of_selectCookie hsel) hv
      · intro c hc hv
        have := updateFirst_pred_preserved (fun c => c.value ≠ v0) _ _
          (sortCookies fresh) hsorted (fun d hd => by simpa using hd) c hc
        exact absurd hv this
  · simp only [hempty, Bool.false_eq_true, if_false]
    have hvalid : ∀ c ∈ cookies.filter (fun c => c.is_valid), c.value ≠ v0 := by
      intro c hc hv
      have hmem := List.mem_of_mem_filter hc
      have hval : c.is_valid = true := by simpa using List.of_mem_filter hc
      rw [hdead c hmem hv] at hval
      exact Bool.false_ne_true hval
    cases hsel : selectCookie (sortCookies (cookies.filter (fun c => c.is_valid))) choice with
    | none => exact ⟨by simp, hdead⟩
    | some sel =>
      refine ⟨?_, ?_⟩
      · simp only [ne_eq, Option.some.injEq]
        intro hv
        have hm := mem_of_selectCookie hsel
        exact hvalid sel
          ((sortDesc_perm Cookie.successRate _).mem_iff.1 hm) hv
      · intro c hc hv
        have := updateFirst_pred_preserved (fun c => c.value = v0 → c.is_valid = false) _ _
          cookies (fun d hd => hdead d hd) (fun d hd => by simpa using hd) c hc
        exact this hv

theorem report_success_preserves_dead (cookies : List Cookie) (v0 v : String)
    (hdead : valueDead cookies v0) : valueDead (report_success cookies v) v0 := by
  intro c hc
  exact updateFirst_pred_preserved (fun c => c.value = v0 → c.is_valid = false) _ _
    cookies (fun d hd => hdead d hd) (fun d hd => by simpa using hd) c hc

theorem report_failure_preserves_dead (cookies : List Cookie) (v0 v : String)
    (hdead : valueDead cookies v0) : valueDead (report_failure cookies v) v0 := by
  intro c hc
  refine updateFirst_pred_preserved (fun c => c.value = v0 → c.is_valid = false) _ _
    cookies (fun d hd => hdead d hd) (fun d hd => ?_) c hc
  by_cases h4 : 3 < d.fail_count + 1
  · simp [h4]
  · simpa [h4] using hd

/-! ## Claim theorems: cookie pool -/

/-- Witness for `cache_set_evicts_lru`: a two-entry cache at capacity 2. -/
theorem cache_set_evicts_lru_witness :
    (((MemoryCache.mk [("a", CacheEntry.mk 1 0 5 0), ("b", CacheEntry.mk 2 0 5 0)] 2 3600 0 0).set
        true "c" 3 (some 1) 0).cache
      = [("a", CacheEntry.mk (1 : Nat) 0 5 0), ("b", CacheEntry.mk 2 0 5 0)].tail
          ++ [("c", { value := 3, created_at := 0, ttl := 1, hits := 0 })])
    ∧ (((MemoryCache.mk [("a", CacheEntry.mk 1 0 5 0), ("b", CacheEntry.mk 2 0 5 0)] 2 3600 0 0).set
        true "c" 3 (some 1) 0).cache.length
      ≤ (MemoryCache.mk [("a", CacheEntry.mk (1 : Nat) 0 5 0), ("b", CacheEntry.mk 2 0 5 0)] 2 3600 0 0).max_size)
    ∧ (2 ≤ ([("a", CacheEntry.mk (1 : Nat) 0 5 0), ("b", CacheEntry.mk 2 0 5 0)]).length →
        ∀ mru ∈ ([("a", CacheEntry.mk (1 : Nat) 0 5 0), ("b", CacheEntry.mk 2 0 5 0)]).getLast?,
          mru ∈ ((MemoryCache.mk [("a", CacheEntry.mk 1 0 5 0), ("b", CacheEntry.mk 2 0 5 0)] 2 3600 0 0).set
              true "c" 3 (some 1) 0).cache) :=
  cache_set_evicts_lru _ "c" 3 1 0 (by norm_num) rfl (by decide)
    (by simp [List.lookup])

/-- C9: once every stored cookie with value `v0` is invalid, no sequence of
`get_cookie` / `report_success` / `report_failure` operations ever hands out
`v0` again, and the property persists — provided pool regeneration draws
fresh values distinct from `v0`, as the random generator does. -/
theorem cookie_invalidation_permanent (cookies : List Cookie) (v0 : String)
    (ops : List CookieOp) (hdead : valueDead cookies v0)
    (hfresh : freshAvoids ops v0) :
    (∀ out ∈ (runCookieOps cookies ops).1, out ≠ some v0)
    ∧ valueDead (runCookieOps cookies ops).2 v0 := by
  induction ops generalizing cookies with
  | nil => exact ⟨by simp [runCookieOps], hdead⟩
  | cons op rest ih =>
    have hrest : freshAvoids rest v0 := fun o ho => hfresh o (by simp [ho])
    cases op with
    | get now fresh choice =>
      have hf : ∀ c ∈ fresh, c.value ≠ v0 := by
        have := hfresh (CookieOp.get now fresh choice) (by simp)
        simpa using this
      obtain ⟨hout, hdead'⟩ := get_cookie_avoids_dead cookies v0 now fresh choice hdead hf
      obtain ⟨ho, hd⟩ := ih _ hdead' hrest
      refine ⟨?_, hd⟩
      intro out hm
      simp only [runCookieOps, cookieStep, List.mem_cons] at hm
      rcases hm with rfl | hm
      · exact hout
      · exact ho out hm
    | success v =>
      obtain ⟨ho, hd⟩ := ih _ (report_success_preserves_dead cookies v0 v hdead) hrest
      refine ⟨?_, hd⟩
      intro out hm
      simp only [runCookieOps, cookieStep, List.mem_cons] at hm
      rcases hm with rfl | hm
      · simp
      · exact ho out hm
    | failure v =>
      obtain ⟨ho, hd⟩ := ih _ (report_failure_preserves_dead cookies v0 v hdead) hrest
      refine ⟨?_, hd⟩
      intro out hm
      simp only [runCookieOps, cookieStep, List.mem_cons] at hm
      rcases hm with rfl | hm
      · simp
      · exact ho out hm

/-- Witness for `cookie_invalidation_permanent`: an invalidated cookie "x",
a success report for another cookie, a regeneration and a further failure
report. -/
theorem cookie_invalidation_permanent_witness :
    (∀ out ∈ (runCookieOps [Cookie.mk "x" 0 0 0 4 false]
        [CookieOp.success "y",
         CookieOp.get 0 [Cookie.mk "f" 0 0 0 0 true] 0,
         CookieOp.failure "x"]).1, out ≠ some "x")
    ∧ valueDead (runCookieOps [Cookie.mk "x" 0 0 0 4 false]
        [CookieOp.success "y",
         CookieOp.get 0 [Cookie.mk "f" 0 0 0 0 true] 0,
         CookieOp.failure "x"]).2 "x" :=
  cookie_invalidation_permanent _ "x" _
    (by intro c hc hv; rw [List.mem_singleton] at hc; subst hc; rfl)
    (by
      intro op hop
      simp only [List.mem_cons, List.not_mem_nil, or_false] at hop
      rcases hop with rfl | rfl | rfl
      · trivial
      · intro c hc; rw [List.mem_singleton] at hc; subst hc; decide
      · trivial)

/-- Modelled from the spec: the claimed identity-selection rule — "sort
valid identities by success ratio ..., take the top 3 (or fewer if pool is
smaller), pick one at random". Uniform random choice over the restricted
set is modelled as indexing with `choice % restricted.length`. Used only
to compare the spec's selection rule against `get_cookie`. -/
def get_cookie_claimed (cookies : List Cookie) (fresh : List Cookie)
    (choice : Nat) : Option String :=
  let valid := cookies.filter (fun c => c.is_valid)
  let pool := if valid.isEmpty then fresh else valid
  let sorted := sortCookies pool
  let restricted := sorted.take 3
  (restricted[choice % restricted.length]?).map Cookie.value

/-- Counterexample to C4 as stated: with exactly two valid identities the
code ignores the random choice and always returns the best-ratio identity,
while the claimed rule (random pick from the restricted set) would return
the second one for an odd random draw. -/
theorem get_cookie_small_pool_not_random :
    (get_cookie [Cookie.mk "a" 0 0 1 0 true, Cookie.mk "b" 0 0 0 0 true] 0 [] 1).1
      = some "a"
    ∧ get_cookie_claimed [Cookie.mk "a" 0 0 1 0 true, Cookie.mk "b" 0 0 0 0 true] [] 1
      = some "b"
    ∧ ("a" : String) ≠ "b" := by
  have hr : Cookie.successRate (Cookie.mk "b" 0 0 0 0 true)
      ≤ Cookie.successRate (Cookie.mk "a" 0 0 1 0 true) := by
    norm_num [Cookie.successRate]
  have hsort : sortCookies [Cookie.mk "a" 0 0 1 0 true, Cookie.mk "b" 0 0 0 0 true]
      = [Cookie.mk "a" 0 0 1 0 true, Cookie.mk "b" 0 0 0 0 true] := by
    simp [sortCookies, sortDesc, List.insertionSort, List.orderedInsert, hr]
  refine ⟨?_, ?_, by decide⟩
  · have hfilter : ([Cookie.mk "a" 0 0 1 0 true, Cookie.mk "b" 0 0 0 0 true]).filter
        (fun c => c.is_valid) = [Cookie.mk "a" 0 0 1 0 true, Cookie.mk "b" 0 0 0 0 true] := by
      rfl
    simp [get_cookie, hfilter, hsort, selectCookie]
  · have hfilter : ([Cookie.mk "a" 0 0 1 0 true, Cookie.mk "b" 0 0 0 0 true]).filter
        (fun c => c.is_valid) = [Cookie.mk "a" 0 0 1 0 true, Cookie.mk "b" 0 0 0 0 true] := by
      rfl
    simp [get_cookie_claimed, hfilter, hsort]

/-- C4 amended: `get_cookie` stable-sorts the valid identities by success
ratio (zero-attempt identities count as ratio 0 but stay eligible) in
descending order; with at least 3 valid identities it returns the value of
a uniformly random pick among the top 3, but with fewer than 3 it
deterministically returns the first identity of the sorted order rather
than a random pick. -/
theorem get_cookie_top3_selection (cookies fresh : List Cookie) (now : ℚ) (choice : Nat)
    (hv : cookies.filter (fun c => c.is_valid) ≠ []) :
    List.Sorted (fun a b => Cookie.successRate b ≤ Cookie.successRate a)
      (sortCookies (cookies.filter (fun c => c.is_valid)))
    ∧ (sortCookies (cookies.filter (fun c => c.is_valid))).Perm
        (cookies.filter (fun c => c.is_valid))
    ∧ (3 ≤ (sortCookies (cookies.filter (fun c => c.is_valid))).length →
        (get_cookie cookies now fresh choice).1
          = (((sortCookies (cookies.filter (fun c => c.is_valid))).take 3)[choice % 3]?).map
              Cookie.value)
    ∧ ((sortCookies (cookies.filter (fun c => c.is_valid))).length < 3 →
        (get_cookie cookies now fresh choice).1
          = ((sortCookies (cookies.filter (fun c => c.is_valid))).head?).map Cookie.value) := by
  have hempty : (cookies.filter (fun c => c.is_valid)).isEmpty = false := by
    simpa [List.isEmpty_iff] using hv
  have hfst : (get_cookie cookies now fresh choice).1
      = (selectCookie (sortCookies (cookies.filter (fun c => c.is_valid))) choice).map
          Cookie.value := by
    simp only [get_cookie, hempty, Bool.false_eq_true, if_false]
    cases selectCookie (sortCookies (cookies.filter (fun c => c.is_valid))) choice with
    | none => simp
    | some sel => simp
  refine ⟨sortDesc_sorted _ _, sortDesc_perm _ _, ?_, ?_⟩
  · intro h3
    rw [hfst]
    unfold selectCookie
    rw [if_pos h3]
  · intro h3
    rw [hfst]
    unfold selectCookie
    rw [if_neg (by omega)]

/-- Witness for `get_cookie_top3_selection` at a concrete two-element pool. -/
theorem get_cookie_top3_selection_witness :
    List.Sorted (fun a b => Cookie.successRate b ≤ Cookie.successRate a)
      (sortCookies (([Cookie.mk "a" 0 0 1 0 true, Cookie.mk "b" 0 0 0 0 true]).filter
        (fun c => c.is_valid)))
    ∧ (sortCookies (([Cookie.mk "a" 0 0 1 0 true, Cookie.mk "b" 0 0 0 0 true]).filter
        (fun c => c.is_valid))).Perm
        (([Cookie.mk "a" 0 0 1 0 true, Cookie.mk "b" 0 0 0 0 true]).filter
          (fun c => c.is_valid))
    ∧ (3 ≤ (sortCookies (([Cookie.mk "a" 0 0 1 0 true, Cookie.mk "b" 0 0 0 0 true]).filter
          (fun c => c.is_valid))).length →
        (get_cookie [Cookie.mk "a" 0 0 1 0 true, Cookie.mk "b" 0 0 0 0 true] 0 [] 1).1
          = (((sortCookies (([Cookie.mk "a" 0 0 1 0 true, Cookie.mk "b" 0 0 0 0 true]).filter
              (fun c => c.is_valid))).take 3)[1 % 3]?).map Cookie.value)
    ∧ ((sortCookies (([Cookie.mk "a" 0 0 1 0 true, Cookie.mk "b" 0 0 0 0 true]).filter
          (fun c => c.is_valid))).length < 3 →
        (get_cookie [Cookie.mk "a" 0 0 1 0 true, Cookie.mk "b" 0 0 0 0 true] 0 [] 1).1
          = ((sortCookies (([Cookie.mk "a" 0 0 1 0 true, Cookie.mk "b" 0 0 0 0 true]).filter
              (fun c => c.is_valid))).head?).map Cookie.value) :=
  get_cookie_top3_selection [Cookie.mk "a" 0 0 1 0 true, Cookie.mk "b" 0 0 0 0 true]
    [] 0 1 (by decide)

/-! ## Rate limiter (`utils/rate_limiter.py`) -/

/-- The `RateLimitBucket` dataclass. -/
structure RateLimitBucket where
  tokens : ℚ
  last_update : ℚ
  max_tokens : ℚ
  refill_rate : ℚ
deriving DecidableEq

/-- The refill step at the head of `RateLimitBucket.consume`: add
`elapsed * refill_rate`, capped at `max_tokens`, and stamp `last_update`. -/
def RateLimitBucket.refill (b : RateLimitBucket) (now : ℚ) : RateLimitBucket :=
  { b with tokens := min b.max_tokens (b.tokens + (now - b.last_update) * b.refill_rate),
           last_update := now }

/-- `RateLimitBucket.consume`: refill lazily, then take `tokens` permits if
available. `now` is the `time.time()` reading of the call. -/
def RateLimitBucket.consume (b : RateLimitBucket) (now : ℚ) (tokens : ℚ := 1) :
    Bool × RateLimitBucket :=
  let b' := b.refill now
  if tokens ≤ b'.tokens then (true, { b' with tokens := b'.tokens - tokens })
  else (false, b')

/-- The `RateLimiter` object: the global bucket plus the lazily created
per-user bucket dict; `user_max` is the `USER_RATE_LIMIT` constant. -/
structure RateLimiter where
  global_bucket : RateLimitBucket
  user_buckets : List (Int × RateLimitBucket)
  user_max : ℚ
deriving DecidableEq

/-- `RateLimiter._get_user_bucket`: look the user's bucket up, creating it
full (at `USER_RATE_LIMIT` tokens, refilling at `USER_RATE_LIMIT/60`) on
first use at creation time `now`. -/
def RateLimiter.getUserBucket (st : RateLimiter) (user_id : Int) (now : ℚ) :
    RateLimitBucket × RateLimiter :=
  match st.user_buckets.lookup user_id with
  | some b => (b, st)
  | none =>
    let b : RateLimitBucket :=
      { tokens := st.user_max, last_update := now,
        max_tokens := st.user_max, refill_rate := st.user_max / 60 }
    (b, { st with user_buckets := st.user_buckets ++ [(user_id, b)] })

/-- Store a (mutated) user bucket back into the dict. -/
def RateLimiter.setUserBucket (st : RateLimiter) (user_id : Int) (b : RateLimitBucket) :
    RateLimiter :=
  { st with user_buckets :=
      updateFirst (fun kv => kv.1 == user_id) (fun kv => (kv.1, b)) st.user_buckets }

/-- Python truthiness of the `if user_id:` guard: `None` and `0` are falsy. -/
def truthyUser : Option Int → Bool
  | none => false
  | some u => u != 0

/-- `RateLimiter.acquire`: consume from the global bucket, then from the
caller's bucket; a caller-side failure refunds the global token. The three
explicit times are the successive `time.time()` readings (global consume,
bucket creation, user consume). -/
def RateLimiter.acquire (st : RateLimiter) (user_id : Option Int)
    (tg tc tu : ℚ) : Bool × RateLimiter :=
  let g := st.global_bucket.consume tg
  if ¬g.1 then (false, { st with global_bucket := g.2 })
  else
    let st1 : RateLimiter := { st with global_bucket := g.2 }
    if truthyUser user_id then
      match user_id with
      | none => (true, st1)
      | some uid =>
        let ub := st1.getUserBucket uid tc
        let u := ub.1.consume tu
        let st2 := ub.2.setUserBucket uid u.2
        if ¬u.1 then
          (false, { st2 with global_bucket :=
            { st2.global_bucket with tokens := st2.global_bucket.tokens + 1 } })
        else (true, st2)
    else (true, st1)

/-- C5: when the global bucket yields a token but the caller's bucket does
not, `acquire` returns `False` and the global token count ends exactly
where a refill-only access would put it — the consumed token is refunded
and no global capacity is lost. -/
theorem acquire_refunds_global (st : RateLimiter) (uid : Int) (tg tc tu : ℚ)
    (hu : uid ≠ 0)
    (hg : (st.global_bucket.consume tg).1 = true)
    (hfail : ((st.getUserBucket uid tc).1.consume tu).1 = false) :
    (st.acquire (some uid) tg tc tu).1 = false
    ∧ (st.acquire (some uid) tg tc tu).2.global_bucket.tokens
        = (st.global_bucket.refill tg).tokens := by
  have htr : truthyUser (some uid) = true := by
    simp [truthyUser, hu]
  have hgb : (st.global_bucket.consume tg).2.tokens
      = (st.global_bucket.refill tg).tokens - 1 := by
    unfold RateLimitBucket.consume at hg ⊢
    by_cases hle : (1 : ℚ) ≤ (st.global_bucket.refill tg).tokens
    · simp [hle]
    · simp [hle] at hg
  have hub : ({ st with global_bucket := (st.global_bucket.consume tg).2 } :
      RateLimiter).getUserBucket uid tc
      = ((st.getUserBucket uid tc).1,
         { (st.getUserBucket uid tc).2 with
             global_bucket := (st.global_bucket.consume tg).2 }) := by
    unfold RateLimiter.getUserBucket
    cases st.user_buckets.lookup uid <;> rfl
  constructor
  · simp only [RateLimiter.acquire, hg, not_true, Bool.false_eq_true, if_false, htr,
      if_true, hub, hfail]
    rfl
  · simp only [RateLimiter.acquire, hg, not_true, Bool.false_eq_true, if_false, htr,
      if_true, hub, hfail]
    simp only [RateLimiter.setUserBucket]
    rw [hgb]
    norm_num

/-- Witness for `acquire_refunds_global`: a full global bucket and an empty
pre-existing user bucket. -/
theorem acquire_refunds_global_witness :
    ((RateLimiter.mk (RateLimitBucket.mk 5 0 5 0) [(7, RateLimitBucket.mk 0 0 1 0)] 10).acquire
        (some 7) 0 0 0).1 = false
    ∧ ((RateLimiter.mk (RateLimitBucket.mk 5 0 5 0) [(7, RateLimitBucket.mk 0 0 1 0)] 10).acquire
        (some 7) 0 0 0).2.global_bucket.tokens
      = ((RateLimiter.mk (RateLimitBucket.mk 5 0 5 0) [(7, RateLimitBucket.mk 0 0 1 0)] 10).global_bucket.refill
          0).tokens :=
  acquire_refunds_global _ 7 0 0 0 (by decide)
    (by norm_num [RateLimitBucket.consume, RateLimitBucket.refill])
    (by norm_num [RateLimiter.getUserBucket, RateLimitBucket.consume,
      RateLimitBucket.refill, List.lookup])

/-! ## Request executor (`extractors/base.py`, `BaseExtractor.request`) -/

/-- The network outcome of one attempt: an HTTP response (with status,
whether `Content-Type` contains `application/json`, and the two possible
body readings), an `asyncio.TimeoutError`, or any other exception. -/
inductive HttpOutcome where
  | status (code : Nat) (contentTypeJson : Bool) (jsonBody : String) (textBody : String)
  | timeout
  | connError (msg : String)
deriving DecidableEq

/-- The parsed payload returned on success: `response.json()` for a JSON
content type, else the `{"html": await response.text()}` wrapper. -/
inductive Payload where
  | json (body : String)
  | html (body : String)
deriving DecidableEq

/-- One feedback call into the proxy / cookie pools. -/
inductive ReportEvent where
  | proxySuccess (url : String) (latency : ℚ)
  | proxyFailure (url : String)
  | cookieSuccess (value : String)
deriving DecidableEq

/-- The observable behaviour of one `request` call: its return value, how
many attempts were made from this point on, the `asyncio.sleep` durations
between consecutive attempts, and the pool feedback emitted. -/
structure RequestTrace where
  result : Option Payload
  attempts : Nat
  sleeps : List ℚ
  reports : List ReportEvent
deriving DecidableEq

/-- `BaseExtractor.request`. Each attempt re-acquires its cookie and proxy,
so those are per-attempt functions of the `retry` counter, as are the
response (`resp`) and the observed latency. Status 200 returns the parsed
payload after reporting success; status 429 sleeps `RETRY_DELAY * 2^retry`
and recurses while `retry < MAX_RETRIES` (never reporting a proxy
failure), else falls through to return `None`; any other status, timeout
or exception reports a proxy failure and falls through to the shared
retry block, which sleeps and recurses while `retry < MAX_RETRIES` and
returns `None` otherwise. -/
def request (maxRetries : Nat) (retryDelay : ℚ) (proxy : Nat → Option String)
    (useCookie : Bool) (cookie : Nat → String) (latency : Nat → ℚ)
    (resp : Nat → HttpOutcome) (retry : Nat) : RequestTrace :=
  match resp retry with
  | .status code ctJson jb tb =>
    if code = 200 then
      { result := some (if ctJson then Payload.json jb else Payload.html tb),
        attempts := 1, sleeps := [],
        reports :=
          (match proxy retry with
           | some u => [ReportEvent.proxySuccess u (latency retry)]
           | none => [])
          ++ (if useCookie then [ReportEvent.cookieSuccess (cookie retry)] else []) }
    else if code = 429 then
      if h : retry < maxRetries then
        let t := request maxRetries retryDelay proxy useCookie cookie latency resp (retry + 1)
        { result := t.result, attempts := t.attempts + 1,
          sleeps := retryDelay * 2 ^ retry :: t.sleeps, reports := t.reports }
      else
        { result := none, attempts := 1, sleeps := [], reports := [] }
    else
      let reps :=
        match proxy retry with
        | some u => [ReportEvent.proxyFailure u]
        | none => []
      if h : retry < maxRetries then
        let t := request maxRetries retryDelay proxy useCookie cookie latency resp (retry + 1)
        { result := t.result, attempts := t.attempts + 1,
          sleeps := retryDelay * 2 ^ retry :: t.sleeps, reports := reps ++ t.reports }
      else
        { result := none, attempts := 1, sleeps := [], reports := reps }
  | .timeout =>
      let reps :=
        match proxy retry with
        | some u => [ReportEvent.proxyFailure u]
        | none => []
      if h : retry < maxRetries then
        let t := request maxRetries retryDelay proxy useCookie cookie latency resp (retry + 1)
        { result := t.result, attempts := t.attempts + 1,
          sleeps := retryDelay * 2 ^ retry :: t.sleeps, reports := reps ++ t.reports }
      else
        { result := none, attempts := 1, sleeps := [], reports := reps }
  | .connError _ =>
      let reps :=
        match proxy retry with
        | some u => [ReportEvent.proxyFailure u]
        | none => []
      if h : retry < maxRetries then
        let t := request maxRetries retryDelay proxy useCookie cookie latency resp (retry + 1)
        { result := t.result, attempts := t.attempts + 1,
          sleeps := retryDelay * 2 ^ retry :: t.sleeps, reports := reps ++ t.reports }
      else
        { result := none, attempts := 1, sleeps := [], reports := reps }
termination_by maxRetries + 1 - retry
decreasing_by all_goals omega

theorem request_429_aux (maxRetries : Nat) (retryDelay : ℚ) (proxy : Nat → Option String)
    (useCookie : Bool) (cookie : Nat → String) (latency : Nat → ℚ)
    (resp : Nat → HttpOutcome) :
    ∀ d retry, maxRetries - retry = d → retry ≤ maxRetries →
      (∀ n, retry ≤ n → n ≤ maxRetries →
        ∃ ctj jb tb, resp n = HttpOutcome.status 429 ctj jb tb) →
      request maxRetries retryDelay proxy useCookie cookie latency resp retry
        = { result := none, attempts := maxRetries + 1 - retry,
            sleeps := (List.range (maxRetries - retry)).map
              (fun k => retryDelay * 2 ^ (retry + k)),
            reports := [] } := by
  intro d
  induction d with
  | zero =>
    intro retry hd hle h429
    have heq : retry = maxRetries := by omega
    obtain ⟨ctj, jb, tb, hresp⟩ := h429 retry le_rfl hle
    rw [request, hresp]
    have hnot : ¬ (retry < maxRetries) := by omega
    simp only [hd]
    norm_num [hnot]
    omega
  | succ d ih =>
    intro retry hd hle h429
    have hlt : retry < maxRetries := by omega
    obtain ⟨ctj, jb, tb, hresp⟩ := h429 retry le_rfl hle
    rw [request, hresp]
    have hrec := ih (retry + 1) (by omega) (by omega)
      (fun n hn hn' => h429 n (by omega) hn')
    norm_num [hlt, hrec]
    refine ⟨by omega, ?_⟩
    have hr : maxRetries - retry = (maxRetries - (retry + 1)) + 1 := by omega
    rw [hr, List.range_succ_eq_map, List.map_cons, List.map_map]
    refine List.cons_eq_cons.mpr ⟨by norm_num, ?_⟩
    apply List.map_congr_left
    intro k _
    have hk : retry + 1 + k = retry + (k + 1) := by omega
    simp [Function.comp, hk]

/-- C2: when every attempt is answered with HTTP 429, `request` makes
exactly `MAX_RETRIES + 1` attempts, sleeping `RETRY_DELAY * 2^attempt`
between consecutive attempts — a strictly increasing sequence whenever
`RETRY_DELAY > 0` — reports nothing (in particular no proxy failure), and
returns the terminal failure `None`. -/
theorem request_429_exhausts (maxRetries : Nat) (retryDelay : ℚ)
    (proxy : Nat → Option String) (useCookie : Bool) (cookie : Nat → String)
    (latency : Nat → ℚ) (resp : Nat → HttpOutcome)
    (h429 : ∀ n, n ≤ maxRetries → ∃ ctj jb tb, resp n = HttpOutcome.status 429 ctj jb tb) :
    request maxRetries retryDelay proxy useCookie cookie latency resp 0
      = { result := none, attempts := maxRetries + 1,
          sleeps := (List.range maxRetries).map (fun k => retryDelay * 2 ^ k),
          reports := [] }
    ∧ (0 < retryDelay →
        ((List.range maxRetries).map (fun k => retryDelay * 2 ^ k)).Pairwise (· < ·)) := by
  constructor
  · have := request_429_aux maxRetries retryDelay proxy useCookie cookie latency resp
      (maxRetries - 0) 0 rfl (Nat.zero_le _) (fun n _ hn' => h429 n hn')
    simpa using this
  · intro hpos
    refine List.Pairwise.map _ (fun a b hab => ?_) (List.pairwise_lt_range maxRetries)
    have h2 : (2 : ℚ) ^ a < 2 ^ b := by
      apply pow_lt_pow_right₀ (by norm_num) hab
    exact mul_lt_mul_of_pos_left h2 hpos

/-- Witness for `request_429_exhausts` with one allowed retry. -/
theorem request_429_exhausts_witness :
    request 1 1 (fun _ => some "p") true (fun _ => "c") (fun _ => 0)
        (fun _ => HttpOutcome.status 429 false "" "") 0
      = { result := none, attempts := 2,
          sleeps := (List.range 1).map (fun k => (1 : ℚ) * 2 ^ k),
          reports := [] }
    ∧ ((0 : ℚ) < 1 →
        ((List.range 1).map (fun k => (1 : ℚ) * 2 ^ k)).Pairwise (· < ·)) :=
  request_429_exhausts 1 1 (fun _ => some "p") true (fun _ => "c") (fun _ => 0)
    (fun _ => HttpOutcome.status 429 false "" "")
    (fun _ _ => ⟨false, "", "", rfl⟩)

/-- Modelled from the claim: C3 as stated reads the success path as firing
for every 2xx status — any attempt answered with a 2xx response reports
success to the pools, returns the parsed payload and performs no retry.
Used only to compare the claim's wording against `request`. -/
def requestClaim2xx : Prop :=
  ∀ (maxRetries : Nat) (retryDelay : ℚ) (proxy : Nat → Option String)
    (useCookie : Bool) (cookie : Nat → String) (latency : Nat → ℚ)
    (resp : Nat → HttpOutcome) (retry code : Nat) (ctj : Bool) (jb tb : String),
    resp retry = HttpOutcome.status code ctj jb tb → 200 ≤ code → code < 300 →
    request maxRetries retryDelay proxy useCookie cookie latency resp retry
      = { result := some (if ctj then Payload.json jb else Payload.html tb),
          attempts := 1, sleeps := [],
          reports :=
            (match proxy retry with
             | some u => [ReportEvent.proxySuccess u (latency retry)]
             | none => [])
            ++ (if useCookie then [ReportEvent.cookieSuccess (cookie retry)] else []) }

/-- Counterexample to C3 as stated: a 201 response is not the literal 200
the code tests for, so the code reports a proxy failure and retries instead
of reporting success and returning the payload. -/
theorem request_201_not_success : ¬ requestClaim2xx := by
  intro h
  have := h 0 0 (fun _ => some "p") false (fun _ => "") (fun _ => 0)
    (fun _ => HttpOutcome.status 201 false "" "") 0 201 false "" ""
    rfl (by norm_num) (by norm_num)
  rw [request] at this
  norm_num at this
  exact absurd this.1 (by simp)

/-- C3 amended: the success path fires exactly for status 200 — the attempt
reports success to the proxy pool (with the observed latency, when a proxy
was used) and to the cookie pool (when a cookie was used), returns the
JSON-decoded body when the content type indicates JSON and the wrapped raw
body text otherwise, and performs no retry (one attempt, no sleeps). -/
theorem request_200_success (maxRetries : Nat) (retryDelay : ℚ)
    (proxy : Nat → Option String) (useCookie : Bool) (cookie : Nat → String)
    (latency : Nat → ℚ) (resp : Nat → HttpOutcome) (retry : Nat)
    (ctj : Bool) (jb tb : String)
    (hresp : resp retry = HttpOutcome.status 200 ctj jb tb) :
    request maxRetries retryDelay proxy useCookie cookie latency resp retry
      = { result := some (if ctj then Payload.json jb else Payload.html tb),
          attempts := 1, sleeps := [],
          reports :=
            (match proxy retry with
             | some u => [ReportEvent.proxySuccess u (latency retry)]
             | none => [])
            ++ (if useCookie then [ReportEvent.cookieSuccess (cookie retry)] else []) } := by
  rw [request, hresp]
  rfl

/-- Witness for `request_200_success`: a JSON 200 response through a proxy
with a cookie attached. -/
theorem request_200_success_witness :
    request 5 2 (fun _ => some "p") true (fun _ => "c") (fun _ => 1)
        (fun _ => HttpOutcome.status 200 true "j" "t") 0
      = { result := some (Payload.json "j"), attempts := 1, sleeps := [],
          reports := [ReportEvent.proxySuccess "p" 1, ReportEvent.cookieSuccess "c"] } := by
  have := request_200_success 5 2 (fun _ => some "p") true (fun _ => "c") (fun _ => 1)
    (fun _ => HttpOutcome.status 200 true "j" "t") 0 true "j" "t" rfl
  simpa using this

/-! ## Extraction orchestrator (`extractors/__init__.py`, `ExtractorManager`) -/

/-- What one strategy invocation does for the URL at hand: raise an
exception, return a falsy result (`None` or an empty/`success`-less dict),
or return a dict whose `success` field is the given boolean, carrying the
payload the orchestrator would hand back. -/
inductive StratOutcome (α : Type) where
  | exc (msg : String)
  | noneResult
  | result (success : Bool) (payload : α)
deriving DecidableEq

/-- One configured extractor: its `name`, `priority` and the behaviour of
its `extract` coroutine on the URL under consideration. -/
structure Extractor (α : Type) where
  name : String
  priority : Int
  outcome : StratOutcome α
deriving DecidableEq

/-- The value `ExtractorManager.extract` returns, by return site. -/
inductive ExtractOutput (α : Type) where
  | invalidUrl
  | rateLimited
  | cachedHit (v : α)
  | extracted (payload : α)
  | exhausted (last_error : Option String)
deriving DecidableEq

/-- The observable behaviour of one `extract` call: the returned value, the
names of the extractors invoked (in order), and what was written to the
cache. -/
structure ExtractRun (α : Type) where
  output : ExtractOutput α
  invoked : List String
  cacheWrite : Option α
deriving DecidableEq

/-- Does `if result and result.get("success"):` fire? -/
def StratOutcome.isSuccess {α : Type} : StratOutcome α → Bool
  | .result true _ => true
  | _ => false

/-- The `for extractor in self.extractors:` loop of `extract`: an exception
is caught, recorded as `last_error` and treated as try-next; a falsy or
unsuccessful result is skipped without touching `last_error`; the first
successful result is cached and returned; exhaustion returns the last
error (or a default message, modelled by `none`). -/
def stratLoop {α : Type} : List (Extractor α) → Option String → ExtractRun α
  | [], lastErr => { output := .exhausted lastErr, invoked := [], cacheWrite := none }
  | e :: rest, lastErr =>
    match e.outcome with
    | .exc m =>
      let r := stratLoop rest (some m)
      { output := r.output, invoked := e.name :: r.invoked, cacheWrite := r.cacheWrite }
    | .noneResult =>
      let r := stratLoop rest lastErr
      { output := r.output, invoked := e.name :: r.invoked, cacheWrite := r.cacheWrite }
    | .result true p => { output := .extracted p, invoked := [e.name], cacheWrite := some p }
    | .result false _ =>
      let r := stratLoop rest lastErr
      { output := r.output, invoked := e.name :: r.invoked, cacheWrite := r.cacheWrite }

/-- The `self.extractors.sort(key=lambda e: e.priority)` call of
`ExtractorManager.__init__`. -/
def sortByPriority {α : Type} (es : List (Extractor α)) : List (Extractor α) :=
  sortAsc (fun e => e.priority) es

/-- `ExtractorManager.extract`: validation gate, rate-limit gate, cache
short-circuit, then the strategy loop over the priority-sorted extractor
list. -/
def extract {α : Type} (extractors : List (Extractor α)) (valid rateOk : Bool)
    (cached : Option α) : ExtractRun α :=
  if ¬valid then { output := .invalidUrl, invoked := [], cacheWrite := none }
  else if ¬rateOk then { output := .rateLimited, invoked := [], cacheWrite := none }
  else
    match cached with
    | some v => { output := .cachedHit v, invoked := [], cacheWrite := none }
    | none => stratLoop extractors none

theorem stratLoop_first_success {α : Type} :
    ∀ (l : List (Extractor α)) (lastErr : Option String) (i : Nat) (e : Extractor α) (p : α),
      (∀ e' ∈ l.take i, e'.outcome.isSuccess = false) →
      l[i]? = some e → e.outcome = StratOutcome.result true p →
      stratLoop l lastErr
        = { output := .extracted p, invoked := (l.take (i + 1)).map (fun x => x.name),
            cacheWrite := some p } := by
  intro l
  induction l with
  | nil => intro lastErr i e p _ hi; simp at hi
  | cons a rest ih =>
    intro lastErr i e p hpre hi hout
    cases i with
    | zero =>
      simp only [List.getElem?_cons_zero, Option.some.injEq] at hi
      subst hi
      simp [stratLoop, hout]
    | succ j =>
      have hi' : rest[j]? = some e := by simpa using hi
      have hpre' : ∀ e' ∈ rest.take j, e'.outcome.isSuccess = false := by
        intro e' he'
        exact hpre e' (by simp [List.take_succ_cons, he'])
      have ha : a.outcome.isSuccess = false := hpre a (by simp [List.take_succ_cons])
      cases houta : a.outcome with
      | exc m =>
        simp [stratLoop, houta, ih (some m) j e p hpre' hi' hout, List.take_succ_cons]
      | noneResult =>
        simp [stratLoop, houta, ih lastErr j e p hpre' hi' hout, List.take_succ_cons]
      | result s q =>
        cases s with
        | false =>
          simp [stratLoop, houta, ih lastErr j e p hpre' hi' hout, List.take_succ_cons]
        | true =>
          rw [houta] at ha
          simp [StratOutcome.isSuccess] at ha

/-- C1: for a validated, admitted, cache-missing request, `extract` runs
the strategies in ascending priority order and stops at the first one whose
result has a truthy `success`: that strategy's payload is returned (and
cached), exactly the strategies up to and including it are invoked, and
earlier exceptions or failures — `StratOutcome.isSuccess = false` covers
raised exceptions, falsy results and `success = False` alike — never abort
the loop. -/
theorem extract_first_success {α : Type} (es : List (Extractor α)) (i : Nat)
    (e : Extractor α) (p : α)
    (hpre : ∀ e' ∈ (sortByPriority es).take i, e'.outcome.isSuccess = false)
    (hi : (sortByPriority es)[i]? = some e)
    (hout : e.outcome = StratOutcome.result true p) :
    List.Sorted (fun a b => a.priority ≤ b.priority) (sortByPriority es)
    ∧ (sortByPriority es).Perm es
    ∧ extract (sortByPriority es) true true none
        = { output := .extracted p,
            invoked := ((sortByPriority es).take (i + 1)).map (fun x => x.name),
            cacheWrite := some p } := by
  refine ⟨?_, sortAsc_perm _ es, ?_⟩
  · simpa using sortAsc_sorted (fun e : Extractor α => e.priority) es
  · show stratLoop (sortByPriority es) none = _
    exact stratLoop_first_success (sortByPriority es) none i e p hpre hi hout

/-- Witness for `extract_first_success`: four extractors given out of
priority order; the lowest-priority one raises, the next returns no result,
the third succeeds and the fourth is never invoked. -/
theorem extract_first_success_witness :
    List.Sorted (fun a b => a.priority ≤ b.priority)
      (sortByPriority [Extractor.mk "s3" 3 (StratOutcome.result true (42 : Nat)),
        Extractor.mk "s1" 1 (StratOutcome.exc "boom"),
        Extractor.mk "s4" 4 (StratOutcome.result true 7),
        Extractor.mk "s2" 2 StratOutcome.noneResult])
    ∧ (sortByPriority [Extractor.mk "s3" 3 (StratOutcome.result true (42 : Nat)),
        Extractor.mk "s1" 1 (StratOutcome.exc "boom"),
        Extractor.mk "s4" 4 (StratOutcome.result true 7),
        Extractor.mk "s2" 2 StratOutcome.noneResult]).Perm
        [Extractor.mk "s3" 3 (StratOutcome.result true (42 : Nat)),
         Extractor.mk "s1" 1 (StratOutcome.exc "boom"),
         Extractor.mk "s4" 4 (StratOutcome.result true 7),
         Extractor.mk "s2" 2 StratOutcome.noneResult]
    ∧ extract (sortByPriority [Extractor.mk "s3" 3 (StratOutcome.result true (42 : Nat)),
        Extractor.mk "s1" 1 (StratOutcome.exc "boom"),
        Extractor.mk "s4" 4 (StratOutcome.result true 7),
        Extractor.mk "s2" 2 StratOutcome.noneResult]) true true none
        = { output := .extracted 42,
            invoked := ((sortByPriority [Extractor.mk "s3" 3 (StratOutcome.result true (42 : Nat)),
              Extractor.mk "s1" 1 (StratOutcome.exc "boom"),
              Extractor.mk "s4" 4 (StratOutcome.result true 7),
              Extractor.mk "s2" 2 StratOutcome.noneResult]).take 3).map (fun x => x.name),
            cacheWrite := some 42 } :=
  extract_first_success
    [Extractor.mk "s3" 3 (StratOutcome.result true (42 : Nat)),
     Extractor.mk "s1" 1 (StratOutcome.exc "boom"),
     Extractor.mk "s4" 4 (StratOutcome.result true 7),
     Extractor.mk "s2" 2 StratOutcome.noneResult] 2
    (Extractor.mk "s3" 3 (StratOutcome.result true 42)) 42
    (by decide) (by decide) (by decide)

/-! ## Proxy selection (`utils/proxy_manager.py`, `ProxyManager.get_proxy`) -/

/-- The `ProxyManager` state: the `USE_PROXY` flag, the proxy list, and
the `domain_cooldowns` defaultdict (domain → url → last-use timestamp,
missing entries read as 0). -/
structure ProxyManagerState where
  use_proxy : Bool
  proxies : List Proxy
  cooldowns : List (String × List (String × ℚ))
deriving DecidableEq

/-- The read `self.domain_cooldowns[domain].get(p.url, 0)`. -/
def cooldownOf (cds : List (String × List (String × ℚ))) (domain url : String) : ℚ :=
  match cds.lookup domain with
  | some m =>
    match m.lookup url with
    | some t => t
    | none => 0
  | none => 0

/-- The revival loop `for p in self.proxies: p.is_alive = True`. -/
def reviveAll (l : List Proxy) : List Proxy :=
  l.map (fun p => { p with is_alive := true })

/-- The per-domain cooldown restriction of `get_proxy`: keep proxies whose
last use against `domain` is more than 5 seconds ago; if that leaves
nothing (or no domain was given), keep the whole list. -/
def cooldownFilter (cds : List (String × List (String × ℚ))) (domain : Option String)
    (now : ℚ) (alive1 : List Proxy) : List Proxy :=
  match domain with
  | some d =>
    let avail := alive1.filter (fun p => 5 < now - cooldownOf cds d p.url)
    if avail.isEmpty then alive1 else avail
  | none => alive1

/-- The windowing `alive_proxies[:max(5, len(alive_proxies) // 4)]` after
the descending score sort. -/
def topWindow (sorted : List Proxy) : List Proxy :=
  sorted.take (max 5 (sorted.length / 4))

/-- `ProxyManager.get_proxy`: `None` when proxying is disabled or the pool
is empty; otherwise filter to alive proxies, reviving every proxy when none
is alive; restrict by the domain cooldown unless that empties the list;
sort by score descending and pick at random inside the top window; stamp
the selection's `last_used` and cooldown. In the revival branch Python's
`alive_proxies` aliases `self.proxies`, so when the cooldown restriction
kept the whole list the in-place sort reorders the stored pool (`store` is
then the sorted list); the `none` match arm models the `IndexError` of
`random.choice` on an empty list, which is unreachable for a non-empty
pool. -/
def get_proxy (st : ProxyManagerState) (domain : Option String) (now : ℚ) (choice : Nat) :
    Option String × ProxyManagerState :=
  if ¬st.use_proxy ∨ st.proxies.isEmpty then (none, st)
  else
    let alive0 := st.proxies.filter (fun p => p.is_alive)
    let revive := alive0.isEmpty
    let proxies1 := if revive then reviveAll st.proxies else st.proxies
    let alive1 := if revive then proxies1 else alive0
    let availEmpty : Bool :=
      match domain with
      | some d => (alive1.filter (fun p => 5 < now - cooldownOf st.cooldowns d p.url)).isEmpty
      | none => true
    let alive2 := cooldownFilter st.cooldowns domain now alive1
    let sorted := sortDesc Proxy.score alive2
    let store := if revive && availEmpty then sorted else proxies1
    match topWindow sorted with
    | [] => (none, st)
    | t0 :: ts =>
      let selected := (t0 :: ts).get ⟨choice % (ts.length + 1), Nat.mod_lt _ (Nat.succ_pos _)⟩
      let store2 := updateFirst (fun p => p == selected) (fun p => { p with last_used := now }) store
      let cds2 :=
        match domain with
        | some d =>
          assocSet d (assocSet selected.url now
            (match st.cooldowns.lookup d with
             | some m => m
             | none => [])) st.cooldowns
        | none => st.cooldowns
      (some selected.url, { st with proxies := store2, cooldowns := cds2 })

theorem cooldownFilter_subset (cds : List (String × List (String × ℚ)))
    (domain : Option String) (now : ℚ) (l : List Proxy) :
    ∀ p ∈ cooldownFilter cds domain now l, p ∈ l := by
  intro p hp
  cases domain with
  | none => exact hp
  | some d =>
    simp only [cooldownFilter] at hp
    by_cases he : (l.filter (fun p => decide (5 < now - cooldownOf cds d p.url))).isEmpty
    · rw [if_pos he] at hp; exact hp
    · rw [if_neg he] at hp; exact List.mem_of_mem_filter hp

theorem cooldownFilter_ne_nil (cds : List (String × List (String × ℚ)))
    (domain : Option String) (now : ℚ) (l : List Proxy) (h : l ≠ []) :
    cooldownFilter cds domain now l ≠ [] := by
  cases domain with
  | none => exact h
  | some d =>
    simp only [cooldownFilter]
    by_cases he : (l.filter (fun p => decide (5 < now - cooldownOf cds d p.url))).isEmpty
    · rw [if_pos he]; exact h
    · rw [if_neg he]
      intro hnil
      rw [hnil] at he
      simp at he

theorem topWindow_subset (sorted : List Proxy) : ∀ p ∈ topWindow sorted, p ∈ sorted := by
  intro p hp
  exact List.mem_of_mem_take hp

theorem topWindow_ne_nil (sorted : List Proxy) (h : sorted ≠ []) : topWindow sorted ≠ [] := by
  have hlen : 0 < sorted.length := List.length_pos.2 h
  have : 0 < (topWindow sorted).length := by
    simp only [topWindow, List.length_take]
    omega
  exact List.ne_nil_of_length_pos this

theorem sortDesc_ne_nil {α : Type} (key : α → ℚ) (l : List α) (h : l ≠ []) :
    sortDesc key l ≠ [] := by
  intro hnil
  have hlen := (sortDesc_perm key l).length_eq
  rw [hnil] at hlen
  exact h (List.eq_nil_of_length_eq_zero hlen.symm)

theorem filter_alive_nil (l : List Proxy) (hdead : ∀ p ∈ l, p.is_alive = false) :
    l.filter (fun p => p.is_alive) = [] := by
  rw [List.filter_eq_nil_iff]
  intro p hp
  simp [hdead p hp]

theorem reviveAll_alive (l : List Proxy) : ∀ p ∈ reviveAll l, p.is_alive = true := by
  intro p hp
  simp only [reviveAll, List.mem_map] at hp
  obtain ⟨q, _, rfl⟩ := hp
  rfl

theorem reviveAll_url (l : List Proxy) (p : Proxy) (hp : p ∈ reviveAll l) :
    p.url ∈ l.map Proxy.url := by
  simp only [reviveAll, List.mem_map] at hp
  obtain ⟨q, hq, rfl⟩ := hp
  simpa using List.mem_map_of_mem Proxy.url hq

theorem get_proxy_dead_pool_aux (st : ProxyManagerState) (domain : Option String)
    (now : ℚ) (choice : Nat)
    (hup : st.use_proxy = true) (hne : st.proxies ≠ [])
    (hdead : ∀ p ∈ st.proxies, p.is_alive = false) :
    (∃ u, (get_proxy st domain now choice).1 = some u ∧ u ∈ st.proxies.map Proxy.url)
    ∧ ∀ p ∈ (get_proxy st domain now choice).2.proxies, p.is_alive = true := by
  have hcond : ¬(¬st.use_proxy ∨ st.proxies.isEmpty) := by
    simp [hup, List.isEmpty_iff, hne]
  have halive0 : st.proxies.filter (fun p => p.is_alive) = [] := filter_alive_nil _ hdead
  have hrevne : reviveAll st.proxies ≠ [] := by
    simp [reviveAll, hne]
  have hcfne : cooldownFilter st.cooldowns domain now (reviveAll st.proxies) ≠ [] :=
    cooldownFilter_ne_nil _ _ _ _ hrevne
  have hsortne :
      sortDesc Proxy.score (cooldownFilter st.cooldowns domain now (reviveAll st.proxies)) ≠ [] :=
    sortDesc_ne_nil _ _ hcfne
  obtain ⟨t0, ts, htop⟩ := List.exists_cons_of_ne_nil (topWindow_ne_nil _ hsortne)
  have hmemchain : ∀ q ∈ topWindow (sortDesc Proxy.score
      (cooldownFilter st.cooldowns domain now (reviveAll st.proxies))),
      q ∈ reviveAll st.proxies := by
    intro q hq
    exact cooldownFilter_subset _ _ _ _ _
      ((sortDesc_perm Proxy.score _).mem_iff.1 (topWindow_subset _ q hq))
  simp only [get_proxy, if_neg hcond, halive0, List.isEmpty_nil, if_true, htop]
  set selected := (t0 :: ts).get ⟨choice % (ts.length + 1), Nat.mod_lt _ (Nat.succ_pos _)⟩ with hsel
  have hselmem : selected ∈ reviveAll st.proxies := by
    apply hmemchain
    rw [htop]
    exact List.get_mem _ _ _
  constructor
  · exact ⟨selected.url, rfl, reviveAll_url _ _ hselmem⟩
  · intro p hp
    refine updateFirst_pred_preserved (fun p => p.is_alive = true) _ _ _ ?_ ?_ p hp
    · intro c hc
      split at hc
      · exact reviveAll_alive _ c
          (cooldownFilter_subset _ _ _ _ c ((sortDesc_perm Proxy.score _).mem_iff.1 hc))
      · exact reviveAll_alive _ c hc
    · intro c hcal
      simpa using hcal

theorem get_proxy_some_of_up_ne (st : ProxyManagerState) (domain : Option String)
    (now : ℚ) (choice : Nat)
    (hup : st.use_proxy = true) (hne : st.proxies ≠ []) :
    ∃ u, (get_proxy st domain now choice).1 = some u := by
  have hcond : ¬(¬st.use_proxy ∨ st.proxies.isEmpty) := by
    simp [hup, List.isEmpty_iff, hne]
  by_cases hrev : (st.proxies.filter (fun p => p.is_alive)).isEmpty
  · have hrevne : reviveAll st.proxies ≠ [] := by
      simp [reviveAll, hne]
    obtain ⟨t0, ts, htop⟩ := List.exists_cons_of_ne_nil
      (topWindow_ne_nil _ (sortDesc_ne_nil Proxy.score _
        (cooldownFilter_ne_nil st.cooldowns domain now _ hrevne)))
    simp only [get_proxy, if_neg hcond, hrev, if_true, htop]
    exact ⟨_, rfl⟩
  · have hfne : st.proxies.filter (fun p => p.is_alive) ≠ [] := by
      intro hnil
      rw [hnil] at hrev
      simp at hrev
    obtain ⟨t0, ts, htop⟩ := List.exists_cons_of_ne_nil
      (topWindow_ne_nil _ (sortDesc_ne_nil Proxy.score _
        (cooldownFilter_ne_nil st.cooldowns domain now _ hfne)))
    simp only [get_proxy, if_neg hcond, hrev, Bool.false_eq_true, if_false, htop]
    exact ⟨_, rfl⟩

/-- C10: `get_proxy` returns `None` exactly when proxying is disabled or
the proxy list is empty; in particular, on a non-empty pool whose proxies
are all dead it revives every proxy (the returned pool is all-alive) and
still returns the URL of some proxy of the pool instead of reporting no
proxy available. -/
theorem get_proxy_none_iff_and_revives (st : ProxyManagerState) (domain : Option String)
    (now : ℚ) (choice : Nat) :
    ((get_proxy st domain now choice).1 = none ↔ st.use_proxy = false ∨ st.proxies = [])
    ∧ (st.use_proxy = true → st.proxies ≠ [] → (∀ p ∈ st.proxies, p.is_alive = false) →
        (∃ u, (get_proxy st domain now choice).1 = some u ∧ u ∈ st.proxies.map Proxy.url)
        ∧ ∀ p ∈ (get_proxy st domain now choice).2.proxies, p.is_alive = true) := by
  constructor
  · constructor
    · intro hnone
      by_cases hup : st.use_proxy = true
      · by_cases hne : st.proxies = []
        · exact Or.inr hne
        · obtain ⟨u, hu⟩ := get_proxy_some_of_up_ne st domain now choice hup hne
          rw [hu] at hnone
          exact absurd hnone (by simp)
      · exact Or.inl (by simpa using hup)
    · intro h
      have hcond : ¬st.use_proxy = true ∨ st.proxies.isEmpty = true := by
        rcases h with h | h
        · exact Or.inl (by simp [h])
        · exact Or.inr (by simp [h])
      simp only [get_proxy]
      rw [if_pos hcond]
  · exact fun hup hne hdead => get_proxy_dead_pool_aux st domain now choice hup hne hdead

/-- Witness for `get_proxy_none_iff_and_revives`: a one-proxy pool whose
single proxy is dead. -/
theorem get_proxy_none_iff_and_revives_witness :
    (∃ u, (get_proxy (ProxyManagerState.mk true [Proxy.mk "p1" 0 0 0 0 false] []) none 0 0).1
        = some u ∧ u ∈ ([Proxy.mk "p1" 0 0 0 0 false]).map Proxy.url)
    ∧ ∀ p ∈ (get_proxy (ProxyManagerState.mk true [Proxy.mk "p1" 0 0 0 0 false] [])
        none 0 0).2.proxies, p.is_alive = true :=
  (get_proxy_none_iff_and_revives (ProxyManagerState.mk true [Proxy.mk "p1" 0 0 0 0 false] [])
    none 0 0).2 rfl (by decide) (by decide)

end Telebot
